import Mathlib

/-!
Verification of the ETF portfolio ledger-to-position reconciler.

Shallow embedding of the position engine of the ETF portfolio tracker.
The reconciler `recalculatePortfolioFromTransactions` (src/app.js, lines
253-291) replays a transaction list into a position list; the superseded
incremental mutator `updatePortfolioFromTransaction` (src/unnamed/part_000,
lines 369-396) patches one position per transaction.

JavaScript numbers are modelled as rationals (`ℚ`); the amounts and the
average-entry divisions the program performs are exact at this granularity.
JS division by zero never occurs on the guarded path of the replay
reconciler; where a claim touches the unguarded division of the incremental
variant, concrete inputs keep the divisor nonzero.
-/

/-- A ledger record as built by `addTransaction` (src/app.js, lines 459-492):
`date`, `etf`, `action`, `shares`, `price`, `total`, `notes`. -/
structure Transaction where
  date : String
  etf : String
  action : String
  shares : ℚ
  price : ℚ
  total : ℚ
  notes : String
  deriving Repr, DecidableEq

/-- A position object as created inside `recalculatePortfolioFromTransactions`
(src/app.js, lines 260-267). -/
structure Position where
  etf : String
  shares : ℚ
  avgEntry : ℚ
  invested : ℚ
  reserved : ℚ
  strategy : String
  deriving Repr, DecidableEq

/-- The `etfStrategies` constant object (src/app.js, lines 56-69), as an
association list. -/
def etfStrategies : List (String × String) :=
  [("SOXX", "Semiconductors - Core growth position"),
   ("IBIT", "Bitcoin exposure - Scaled accumulation"),
   ("ARKK", "Innovation - Multi-tranche entry"),
   ("IWM", "Small-cap value"),
   ("IAU", "Gold hedge for dollar weakness"),
   ("SLV", "Silver hedge for dollar weakness"),
   ("VWO", "Emerging markets diversification"),
   ("AIA", "Asia ex-Japan exposure"),
   ("SCHD", "Dividend growth exposure"),
   ("VTI", "Total market exposure"),
   ("HYG", "High yield bonds"),
   ("INDA", "India exposure")]

/-- The fresh position pushed when no position exists for the symbol
(src/app.js, lines 259-269): zero everywhere,
`strategy = etfStrategies[t.etf] || 'Add strategy notes'`. -/
def emptyPosition (etf : String) : Position :=
  { etf := etf, shares := 0, avgEntry := 0, invested := 0, reserved := 0,
    strategy := (etfStrategies.lookup etf).getD "Add strategy notes" }

/-- The per-transaction mutation applied to the found (or freshly pushed)
position (src/app.js, lines 271-287): a BUY accumulates shares and the
stored `total` into `invested` and recomputes `avgEntry`; a SELL removes
cost at `avgEntry` and clamps a non-positive share balance to a flat
position; any other action leaves the position unchanged. -/
def applyAction (p : Position) (t : Transaction) : Position :=
  if t.action = "BUY" then
    let newTotalShares := p.shares + t.shares
    let newTotalInvested := p.invested + t.total
    { p with
      avgEntry := if newTotalShares > 0 then newTotalInvested / newTotalShares else 0,
      shares := newTotalShares,
      invested := newTotalInvested }
  else if t.action = "SELL" then
    let soldValue := t.shares * p.avgEntry
    let newShares := p.shares - t.shares
    let newInvested := p.invested - soldValue
    if newShares ≤ 0 then
      { p with shares := 0, avgEntry := 0, invested := 0 }
    else
      { p with shares := newShares, invested := newInvested }
  else
    p

/-- One iteration of the `transactions.forEach` body (src/app.js, lines
256-288): find the first position whose `etf` matches (and mutate it in
place), or push a fresh one and mutate that. -/
def applyTransaction (portfolio : List Position) (t : Transaction) : List Position :=
  match portfolio with
  | [] => [applyAction (emptyPosition t.etf) t]
  | p :: rest =>
    if p.etf = t.etf then applyAction p t :: rest
    else p :: applyTransaction rest t

/-- `recalculatePortfolioFromTransactions` (src/app.js, lines 253-291):
reset `portfolio = []`, then fold the `forEach` body over the whole
transaction list. -/
def recalculatePortfolioFromTransactions (transactions : List Transaction) : List Position :=
  transactions.foldl applyTransaction []

/-- The same function seen with the ambient mutable state it runs in: the
source overwrites the global `portfolio` (line 254) before replaying, so the
previous portfolio value is ignored. -/
def recalculateStateful (oldPortfolio : List Position) (transactions : List Transaction) :
    List Position :=
  recalculatePortfolioFromTransactions transactions

/-- First position whose `etf` field matches, as `portfolio.find(...)` does
(src/app.js, line 257). -/
def findPosition (portfolio : List Position) (etf : String) : Option Position :=
  portfolio.find? (fun p => p.etf = etf)

/-- The position the replay currently holds for a symbol, defaulting to the
fresh zero position the source would push. -/
def currentPosition (portfolio : List Position) (etf : String) : Position :=
  (findPosition portfolio etf).getD (emptyPosition etf)

/-- The distinct symbols of a list in first-encountered order. -/
def firstSeen (l : List String) : List String :=
  l.foldl (fun acc s => if s ∈ acc then acc else acc ++ [s]) []

/-- The validity predicate of the spec: a transaction is invalid when
`shares <= 0`, `price < 0`, the symbol is empty, or the action is neither
BUY nor SELL. -/
def invalidTransaction (t : Transaction) : Prop :=
  t.shares ≤ 0 ∨ t.price < 0 ∨ t.etf = "" ∨ (t.action ≠ "BUY" ∧ t.action ≠ "SELL")

/-- The fresh position pushed by the superseded incremental mutator
(src/unnamed/part_000, lines 372-382): as `emptyPosition` but with an empty
strategy string. -/
def emptyPositionIncr (etf : String) : Position :=
  { etf := etf, shares := 0, avgEntry := 0, invested := 0, reserved := 0, strategy := "" }

/-- The per-position mutation of `updatePortfolioFromTransaction`
(src/unnamed/part_000, lines 384-393): a BUY recomputes `avgEntry` from
`shares * avgEntry + total` and adds `total` to `invested`; a SELL subtracts
the transaction `total` from `invested` with no clamp. -/
def updateAction (p : Position) (tx : Transaction) : Position :=
  if tx.action = "BUY" then
    let totalCost := p.shares * p.avgEntry + tx.total
    let totalShares := p.shares + tx.shares
    { p with
      avgEntry := totalCost / totalShares,
      shares := totalShares,
      invested := p.invested + tx.total }
  else if tx.action = "SELL" then
    { p with shares := p.shares - tx.shares, invested := p.invested - tx.total }
  else
    p

/-- `updatePortfolioFromTransaction` (src/unnamed/part_000, lines 369-396):
find the first matching position or push a fresh one, then mutate it. -/
def updatePortfolioFromTransaction (portfolio : List Position) (tx : Transaction) :
    List Position :=
  match portfolio with
  | [] => [updateAction (emptyPositionIncr tx.etf) tx]
  | p :: rest =>
    if p.etf = tx.etf then updateAction p tx :: rest
    else p :: updatePortfolioFromTransaction rest tx

/-- The incremental strategy run over a whole ledger: start from an empty
portfolio and apply `updatePortfolioFromTransaction` per transaction, as the
old version does on each submission. -/
def incrementalReplay (transactions : List Transaction) : List Position :=
  transactions.foldl updatePortfolioFromTransaction []

/-! ## Structural lemmas about the replay step -/

theorem applyAction_etf (p : Position) (t : Transaction) :
    (applyAction p t).etf = p.etf := by
  simp only [applyAction]
  split_ifs <;> rfl

theorem findPosition_nil (s : String) : findPosition [] s = none := rfl

theorem findPosition_cons (p : Position) (ps : List Position) (s : String) :
    findPosition (p :: ps) s = if p.etf = s then some p else findPosition ps s := by
  by_cases h : p.etf = s <;> simp [findPosition, List.find?_cons, h]

theorem findPosition_applyTransaction_self (ps : List Position) (t : Transaction) :
    findPosition (applyTransaction ps t) t.etf =
      some (applyAction (currentPosition ps t.etf) t) := by
  induction ps with
  | nil =>
    simp [applyTransaction, findPosition_cons, applyAction_etf, emptyPosition,
      currentPosition, findPosition_nil]
  | cons p rest ih =>
    by_cases h : p.etf = t.etf
    · simp [applyTransaction, h, findPosition_cons, applyAction_etf, currentPosition]
    · simp [applyTransaction, h, findPosition_cons, ih, currentPosition]

theorem findPosition_applyTransaction_ne (ps : List Position) (t : Transaction)
    (s : String) (h : s ≠ t.etf) :
    findPosition (applyTransaction ps t) s = findPosition ps s := by
  have hts : ¬ t.etf = s := fun hc => h hc.symm
  induction ps with
  | nil =>
    simp [applyTransaction, findPosition_cons, applyAction_etf, emptyPosition,
      findPosition_nil, hts]
  | cons p rest ih =>
    by_cases hpt : p.etf = t.etf
    · have hps : ¬ p.etf = s := fun hc => h ((hpt.symm.trans hc).symm)
      simp [applyTransaction, hpt, findPosition_cons, applyAction_etf, hps, hts]
    · by_cases hps : p.etf = s
      · simp [applyTransaction, hpt, findPosition_cons, hps, h, hts]
      · simp [applyTransaction, hpt, findPosition_cons, hps, ih]

theorem applyTransaction_map_etf (ps : List Position) (t : Transaction) :
    (applyTransaction ps t).map Position.etf =
      if t.etf ∈ ps.map Position.etf then ps.map Position.etf
      else ps.map Position.etf ++ [t.etf] := by
  induction ps with
  | nil => simp [applyTransaction, applyAction_etf, emptyPosition]
  | cons p rest ih =>
    by_cases hpt : p.etf = t.etf
    · simp [applyTransaction, hpt, applyAction_etf]
    · have hne : ¬ t.etf = p.etf := fun hc => hpt hc.symm
      by_cases hm : t.etf ∈ rest.map Position.etf
      · simp [applyTransaction, hpt, ih, hm, hne]
      · simp [applyTransaction, hpt, ih, hm, hne]

theorem foldl_applyTransaction_map_etf (ts : List Transaction) :
    ∀ ps : List Position,
      ((ts.foldl applyTransaction ps).map Position.etf) =
        ts.foldl (fun acc t => if t.etf ∈ acc then acc else acc ++ [t.etf])
          (ps.map Position.etf) := by
  induction ts with
  | nil => intro ps; rfl
  | cons t ts ih =>
    intro ps
    rw [List.foldl_cons, List.foldl_cons, ih, applyTransaction_map_etf]

theorem recalculate_map_etf (ts : List Transaction) :
    (recalculatePortfolioFromTransactions ts).map Position.etf =
      firstSeen (ts.map Transaction.etf) := by
  rw [recalculatePortfolioFromTransactions, foldl_applyTransaction_map_etf, firstSeen,
    List.foldl_map]
  rfl

theorem mem_firstSeen_foldl (l : List String) :
    ∀ (acc : List String) (s : String),
      (s ∈ l.foldl (fun acc x => if x ∈ acc then acc else acc ++ [x]) acc) ↔
        s ∈ acc ∨ s ∈ l := by
  induction l with
  | nil => intro acc s; simp
  | cons a l ih =>
    intro acc s
    rw [List.foldl_cons, ih]
    by_cases ha : a ∈ acc
    · rw [if_pos ha]
      constructor
      · rintro (hs | hs)
        · exact Or.inl hs
        · exact Or.inr (List.mem_cons_of_mem a hs)
      · rintro (hs | hs)
        · exact Or.inl hs
        · rcases List.mem_cons.mp hs with hs | hs
          · exact Or.inl (hs ▸ ha)
          · exact Or.inr hs
    · rw [if_neg ha]
      constructor
      · rintro (hs | hs)
        · rcases List.mem_append.mp hs with hs | hs
          · exact Or.inl hs
          · exact Or.inr (List.mem_cons.mpr (Or.inl (List.mem_singleton.mp hs)))
        · exact Or.inr (List.mem_cons_of_mem a hs)
      · rintro (hs | hs)
        · exact Or.inl (List.mem_append.mpr (Or.inl hs))
        · rcases List.mem_cons.mp hs with hs | hs
          · exact Or.inl (List.mem_append.mpr (Or.inr (List.mem_singleton.mpr hs)))
          · exact Or.inr hs

theorem nodup_firstSeen_foldl (l : List String) :
    ∀ acc : List String, acc.Nodup →
      (l.foldl (fun acc x => if x ∈ acc then acc else acc ++ [x]) acc).Nodup := by
  induction l with
  | nil => intro acc h; exact h
  | cons a l ih =>
    intro acc h
    rw [List.foldl_cons]
    by_cases ha : a ∈ acc
    · rw [if_pos ha]; exact ih acc h
    · rw [if_neg ha]
      refine ih _ ?_
      simp [List.nodup_append, h, ha]

theorem firstSeen_nodup (l : List String) : (firstSeen l).Nodup :=
  nodup_firstSeen_foldl l [] List.nodup_nil

theorem mem_firstSeen (l : List String) (s : String) : s ∈ firstSeen l ↔ s ∈ l := by
  rw [firstSeen, mem_firstSeen_foldl]
  simp

theorem findPosition_foldl (ts : List Transaction) :
    ∀ (ps : List Position) (s : String),
      findPosition (ts.foldl applyTransaction ps) s =
        ts.foldl
          (fun op t =>
            if t.etf = s then some (applyAction (op.getD (emptyPosition s)) t) else op)
          (findPosition ps s) := by
  induction ts with
  | nil => intro ps s; rfl
  | cons t ts ih =>
    intro ps s
    rw [List.foldl_cons, List.foldl_cons, ih]
    by_cases h : t.etf = s
    · subst h
      rw [findPosition_applyTransaction_self, if_pos rfl]
      rfl
    · rw [findPosition_applyTransaction_ne ps t s (fun hc => h hc.symm), if_neg h]

/-- The per-symbol projection of the replay: fold the mutation over just the
transactions of one symbol. -/
def replaySymbol (s : String) (ts : List Transaction) : Option Position :=
  (ts.filter (fun t => t.etf = s)).foldl
    (fun op t => some (applyAction (op.getD (emptyPosition s)) t)) none

theorem foldl_symbol_filter (s : String) (ts : List Transaction) :
    ∀ op : Option Position,
      ts.foldl
        (fun op t =>
          if t.etf = s then some (applyAction (op.getD (emptyPosition s)) t) else op)
        op =
      (ts.filter (fun t => t.etf = s)).foldl
        (fun op t => some (applyAction (op.getD (emptyPosition s)) t)) op := by
  induction ts with
  | nil => intro op; rfl
  | cons t ts ih =>
    intro op
    by_cases h : t.etf = s
    · simp [List.filter_cons, h, ih]
    · simp [List.filter_cons, h, ih]

theorem findPosition_recalculate (ts : List Transaction) (s : String) :
    findPosition (recalculatePortfolioFromTransactions ts) s = replaySymbol s ts := by
  rw [recalculatePortfolioFromTransactions, findPosition_foldl, findPosition_nil,
    foldl_symbol_filter, replaySymbol]


/-- An interleaving of two transaction lists: the merged list contains both,
each with its relative order preserved. -/
inductive Interleaving : List Transaction → List Transaction → List Transaction → Prop
  | nil : Interleaving [] [] []
  | left (x : Transaction) {l r m : List Transaction} :
      Interleaving l r m → Interleaving (x :: l) r (x :: m)
  | right (x : Transaction) {l r m : List Transaction} :
      Interleaving l r m → Interleaving l (x :: r) (x :: m)

theorem Interleaving.symm {l r m : List Transaction} (h : Interleaving l r m) :
    Interleaving r l m := by
  induction h with
  | nil => exact Interleaving.nil
  | left x _ ih => exact Interleaving.right x ih
  | right x _ ih => exact Interleaving.left x ih

theorem Interleaving.filter_eq_left {l r m : List Transaction}
    (pr : Transaction → Bool) (h : Interleaving l r m)
    (hr : ∀ x ∈ r, pr x = false) :
    m.filter pr = l.filter pr := by
  induction h with
  | nil => rfl
  | left x hint ih =>
    rw [List.filter_cons, List.filter_cons, ih hr]
  | right x hint ih =>
    rw [List.filter_cons, hr x (List.mem_cons_self x _),
      ih (fun y hy => hr y (List.mem_cons_of_mem x hy))]
    simp

/-! ## The average-cost invariant -/

/-- The inductive invariant each replayed position satisfies when every
transaction carries a positive share count. -/
def PosInv (p : Position) : Prop :=
  0 ≤ p.shares ∧ (0 < p.shares → p.avgEntry = p.invested / p.shares) ∧
    (p.shares = 0 → p.avgEntry = 0 ∧ p.invested = 0)

theorem posInv_emptyPosition (s : String) : PosInv (emptyPosition s) := by
  refine ⟨le_refl 0, fun h => absurd h (lt_irrefl 0), fun _ => ⟨rfl, rfl⟩⟩

theorem posInv_applyAction (p : Position) (t : Transaction)
    (hp : PosInv p) (ht : 0 < t.shares) : PosInv (applyAction p t) := by
  obtain ⟨h0, h1, h2⟩ := hp
  by_cases hb : t.action = "BUY"
  · have hpos : 0 < p.shares + t.shares := add_pos_of_nonneg_of_pos h0 ht
    have hA : applyAction p t = { p with
        avgEntry := if p.shares + t.shares > 0
          then (p.invested + t.total) / (p.shares + t.shares) else 0,
        shares := p.shares + t.shares,
        invested := p.invested + t.total } := by
      simp [applyAction, hb]
    rw [hA]
    exact ⟨le_of_lt hpos, fun _ => if_pos hpos,
      fun hz => absurd ((show p.shares + t.shares = 0 from hz) ▸ hpos) (lt_irrefl 0)⟩
  · by_cases hs : t.action = "SELL"
    · have hA : applyAction p t = (if p.shares - t.shares ≤ 0
          then { p with shares := 0, avgEntry := 0, invested := 0 }
          else { p with
                 shares := p.shares - t.shares,
                 invested := p.invested - t.shares * p.avgEntry }) := by
        simp [applyAction, hb, hs]
      rw [hA]
      by_cases hc : p.shares - t.shares ≤ 0
      · rw [if_pos hc]
        exact ⟨le_refl 0, fun h => absurd h (lt_irrefl 0), fun _ => ⟨rfl, rfl⟩⟩
      · rw [if_neg hc]
        push_neg at hc
        have hsp : 0 < p.shares := lt_trans ht (by linarith)
        have havg : p.avgEntry = p.invested / p.shares := h1 hsp
        refine ⟨le_of_lt hc, fun _ => ?_,
          fun hz => absurd ((show p.shares - t.shares = 0 from hz) ▸ hc) (lt_irrefl 0)⟩
        have hne : p.shares ≠ 0 := ne_of_gt hsp
        have hne2 : p.shares - t.shares ≠ 0 := ne_of_gt hc
        show p.avgEntry = (p.invested - t.shares * p.avgEntry) / (p.shares - t.shares)
        rw [havg]
        field_simp
        ring
    · have hA : applyAction p t = p := by simp [applyAction, hb, hs]
      rw [hA]
      exact ⟨h0, h1, h2⟩

theorem posInv_applyTransaction (ps : List Position) (t : Transaction)
    (hps : ∀ p ∈ ps, PosInv p) (ht : 0 < t.shares) :
    ∀ p ∈ applyTransaction ps t, PosInv p := by
  induction ps with
  | nil =>
    intro p hp
    rcases List.mem_singleton.mp hp with rfl
    exact posInv_applyAction _ t (posInv_emptyPosition t.etf) ht
  | cons q rest ih =>
    by_cases hq : q.etf = t.etf
    · intro p hp
      rw [applyTransaction] at hp
      rw [if_pos hq] at hp
      rcases List.mem_cons.mp hp with rfl | hp
      · exact posInv_applyAction q t (hps q (List.mem_cons_self q rest)) ht
      · exact hps p (List.mem_cons_of_mem q hp)
    · intro p hp
      rw [applyTransaction] at hp
      rw [if_neg hq] at hp
      rcases List.mem_cons.mp hp with rfl | hp
      · exact hps p (List.mem_cons_self p rest)
      · exact ih (fun r hr => hps r (List.mem_cons_of_mem q hr)) p hp

theorem posInv_foldl (ts : List Transaction) :
    ∀ ps : List Position, (∀ p ∈ ps, PosInv p) → (∀ t ∈ ts, 0 < t.shares) →
      ∀ p ∈ ts.foldl applyTransaction ps, PosInv p := by
  induction ts with
  | nil => intro ps hps _ p hp; exact hps p hp
  | cons t ts ih =>
    intro ps hps hts p hp
    rw [List.foldl_cons] at hp
    exact ih (applyTransaction ps t)
      (posInv_applyTransaction ps t hps (hts t (List.mem_cons_self t ts)))
      (fun u hu => hts u (List.mem_cons_of_mem t hu)) p hp

/-! ## The sale price is never read -/

theorem applyAction_price_irrelevant (p : Position) (t : Transaction) (q : ℚ) :
    applyAction p { t with price := q } = applyAction p t := rfl

theorem applyTransaction_price_irrelevant (ps : List Position) (t : Transaction) (q : ℚ) :
    applyTransaction ps { t with price := q } = applyTransaction ps t := by
  induction ps with
  | nil => rfl
  | cons p rest ih =>
    show (if p.etf = t.etf then applyAction p { t with price := q } :: rest
      else p :: applyTransaction rest { t with price := q }) = _
    rw [ih, applyAction_price_irrelevant]
    rfl

theorem recalculate_append_single (ts : List Transaction) (t : Transaction) :
    recalculatePortfolioFromTransactions (ts ++ [t]) =
      applyTransaction (recalculatePortfolioFromTransactions ts) t := by
  rw [recalculatePortfolioFromTransactions, recalculatePortfolioFromTransactions,
    List.foldl_append]
  rfl

/-! ## Concrete fixtures used by the scenario parts of the claims -/

/-- Scenario 1/2 first BUY (also the first record of `initialTransactions`,
src/app.js line 24). -/
def tSOXX1 : Transaction :=
  { date := "2024-01-15", etf := "SOXX", action := "BUY", shares := 107,
    price := 280, total := 29960, notes := "" }

/-- Scenario 2 second BUY (src/app.js line 33). -/
def tSOXX2 : Transaction :=
  { date := "2024-12-13", etf := "SOXX", action := "BUY", shares := 48,
    price := 310, total := 14880, notes := "" }

/-- The position scenario 2 must produce. -/
def soxxPosition : Position :=
  { etf := "SOXX", shares := 155, avgEntry := 44840 / 155, invested := 44840,
    reserved := 0, strategy := "Semiconductors - Core growth position" }

/-- Scenario 4 BUY: 10 shares of AAA at 10, total 100. -/
def buyAAA : Transaction :=
  { date := "2024-01-01", etf := "AAA", action := "BUY", shares := 10,
    price := 10, total := 100, notes := "" }

/-- Scenario 4 oversell: 20 shares, price irrelevant. -/
def sellAAA20 : Transaction :=
  { date := "2024-01-02", etf := "AAA", action := "SELL", shares := 20,
    price := 999, total := 0, notes := "" }

/-- A partial sale: 5 of the 10 AAA shares at 12, total 60. -/
def sellAAA5 : Transaction :=
  { date := "2024-01-02", etf := "AAA", action := "SELL", shares := 5,
    price := 12, total := 60, notes := "" }

/-- A full closing sale: all 10 AAA shares at 12, total 120. -/
def sellAAA10 : Transaction :=
  { date := "2024-01-03", etf := "AAA", action := "SELL", shares := 10,
    price := 12, total := 120, notes := "" }

/-- An invalid BUY: negative share count and total. -/
def badBuyNeg : Transaction :=
  { date := "2024-01-02", etf := "AAA", action := "BUY", shares := -5,
    price := 10, total := -50, notes := "" }

/-- A record with an action outside BUY/SELL. -/
def tDividend : Transaction :=
  { date := "2024-02-01", etf := "ZZZ", action := "DIVIDEND", shares := 3,
    price := 5, total := 15, notes := "" }

/-- A BUY of symbol A used for the interleaving witness. -/
def tA : Transaction :=
  { date := "2024-03-01", etf := "A", action := "BUY", shares := 1,
    price := 2, total := 2, notes := "" }

/-- A BUY of symbol B used for the interleaving witness. -/
def tB : Transaction :=
  { date := "2024-03-02", etf := "B", action := "BUY", shares := 3,
    price := 4, total := 12, notes := "" }

/-! ## Small evaluation facts used when replaying the concrete scenarios -/

theorem sell_ne_buy_str : ¬ ("SELL" : String) = "BUY" := by decide

theorem dividend_ne_buy_str : ¬ ("DIVIDEND" : String) = "BUY" := by decide

theorem dividend_ne_sell_str : ¬ ("DIVIDEND" : String) = "SELL" := by decide

theorem b_ne_a_str : ¬ ("B" : String) = "A" := by decide

theorem a_ne_b_str : ¬ ("A" : String) = "B" := by decide

theorem lookup_strategy_SOXX :
    etfStrategies.lookup "SOXX" = some "Semiconductors - Core growth position" := rfl

theorem lookup_strategy_AAA : etfStrategies.lookup "AAA" = none := by decide

theorem lookup_strategy_ZZZ : etfStrategies.lookup "ZZZ" = none := by decide

theorem lookup_strategy_A : etfStrategies.lookup "A" = none := by decide

theorem lookup_strategy_B : etfStrategies.lookup "B" = none := by decide

/-! ## The claims -/

/-- C1: processing a BUY for symbol s updates the position for s to
shares + t.shares and invested + t.total (the stored total verbatim), with
avgEntry = invested / shares when shares is positive and 0 otherwise; and
the two-BUY SOXX scenario yields shares 155, invested 44840,
avgEntry 44840/155. -/
theorem C1_buy_uses_stored_total (ts : List Transaction) (t : Transaction)
    (old : Position) (h : t.action = "BUY")
    (hold : old = currentPosition (recalculatePortfolioFromTransactions ts) t.etf) :
    findPosition (recalculatePortfolioFromTransactions (ts ++ [t])) t.etf =
      some { old with
             avgEntry := if 0 < old.shares + t.shares
               then (old.invested + t.total) / (old.shares + t.shares) else 0,
             shares := old.shares + t.shares,
             invested := old.invested + t.total } ∧
    recalculatePortfolioFromTransactions [tSOXX1, tSOXX2] = [soxxPosition] := by
  subst hold
  constructor
  · rw [recalculate_append_single, findPosition_applyTransaction_self]
    congr 1
    simp [applyAction, h]
  · norm_num [recalculatePortfolioFromTransactions, applyTransaction, applyAction,
      emptyPosition, lookup_strategy_SOXX, tSOXX1, tSOXX2, soxxPosition,
      Position.mk.injEq]

/-- Witness for C1: the Scenario 2 replay, obtained from the theorem at the
concrete input. -/
theorem C1_buy_uses_stored_total_witness :
    recalculatePortfolioFromTransactions [tSOXX1, tSOXX2] = [soxxPosition] :=
  (C1_buy_uses_stored_total [] tSOXX1
    (currentPosition (recalculatePortfolioFromTransactions []) tSOXX1.etf) rfl rfl).2

/-- C2: a SELL that drives the share balance to 0 or below commits a flat
position (shares 0, avgEntry 0, invested 0) whatever the sale price and the
computed sold cost basis were, and the oversell scenario clamps AAA to flat
with no failure. -/
theorem C2_sell_clamps_to_flat (ts : List Transaction) (t : Transaction)
    (old : Position) (h : t.action = "SELL")
    (hold : old = currentPosition (recalculatePortfolioFromTransactions ts) t.etf)
    (hc : old.shares - t.shares ≤ 0) :
    findPosition (recalculatePortfolioFromTransactions (ts ++ [t])) t.etf =
      some { old with shares := 0, avgEntry := 0, invested := 0 } ∧
    recalculatePortfolioFromTransactions [buyAAA, sellAAA20] =
      [{ etf := "AAA", shares := 0, avgEntry := 0, invested := 0, reserved := 0,
         strategy := "Add strategy notes" }] := by
  subst hold
  constructor
  · rw [recalculate_append_single, findPosition_applyTransaction_self]
    congr 1
    simp [applyAction, h, hc, sell_ne_buy_str]
  · norm_num [recalculatePortfolioFromTransactions, applyTransaction, applyAction,
      emptyPosition, lookup_strategy_AAA, sell_ne_buy_str, buyAAA, sellAAA20,
      Position.mk.injEq]

/-- Witness for C2: the oversell scenario, obtained from the theorem at the
concrete input. -/
theorem C2_sell_clamps_to_flat_witness :
    recalculatePortfolioFromTransactions [buyAAA, sellAAA20] =
      [{ etf := "AAA", shares := 0, avgEntry := 0, invested := 0, reserved := 0,
         strategy := "Add strategy notes" }] :=
  (C2_sell_clamps_to_flat [] sellAAA20
    (currentPosition (recalculatePortfolioFromTransactions []) sellAAA20.etf) rfl rfl
    (by norm_num [currentPosition, recalculatePortfolioFromTransactions,
      findPosition_nil, emptyPosition, sellAAA20])).2

/-- C3: on any input whose transactions all have positive shares and totals,
every replayed position has avgEntry equal to invested divided by shares when
shares is positive, and a zero share balance forces avgEntry and invested to
zero. -/
theorem C3_average_cost_invariant (ts : List Transaction)
    (h : ∀ t ∈ ts, 0 < t.shares ∧ 0 < t.total) :
    ∀ p ∈ recalculatePortfolioFromTransactions ts,
      (0 < p.shares → p.avgEntry = p.invested / p.shares) ∧
      (p.shares = 0 → p.avgEntry = 0 ∧ p.invested = 0) := by
  intro p hp
  have hinv := posInv_foldl ts [] (by intro q hq; cases hq)
    (fun t ht => (h t ht).1) p hp
  exact ⟨hinv.2.1, hinv.2.2⟩

/-- Witness for C3: the invariant evaluated on the SOXX position produced by
Scenario 2. -/
theorem C3_average_cost_invariant_witness :
    soxxPosition.avgEntry = soxxPosition.invested / soxxPosition.shares := by
  have h := C3_average_cost_invariant [tSOXX1, tSOXX2]
    (by norm_num [tSOXX1, tSOXX2]) soxxPosition
    (by norm_num [recalculatePortfolioFromTransactions, applyTransaction, applyAction,
      emptyPosition, lookup_strategy_SOXX, tSOXX1, tSOXX2, soxxPosition,
      Position.mk.injEq])
  exact h.1 (by norm_num [soxxPosition])

/-- C4 counterexample: the code never raises InvalidTransaction; a BUY with
negative shares and total is not rejected and changes the replayed result,
so ingestion does not abort on it. -/
theorem C4_counterexample_invalid_applied :
    invalidTransaction badBuyNeg ∧
    recalculatePortfolioFromTransactions [buyAAA, badBuyNeg] ≠
      recalculatePortfolioFromTransactions [buyAAA] := by
  constructor
  · exact Or.inl (by norm_num [badBuyNeg])
  · norm_num [recalculatePortfolioFromTransactions, applyTransaction, applyAction,
      emptyPosition, lookup_strategy_AAA, buyAAA, badBuyNeg, Position.mk.injEq]

/-- C4 (amended): the source performs no transaction validation; an invalid
transaction (non-positive shares, negative price, empty symbol, or unknown
action) raises nothing and is folded into the replay exactly like any other
record, and the concrete invalid BUY leaves a corrupted AAA position of
5 shares and invested 50. -/
theorem C4_no_validation (ts : List Transaction) (t : Transaction)
    (h : invalidTransaction t) :
    recalculatePortfolioFromTransactions (ts ++ [t]) =
      applyTransaction (recalculatePortfolioFromTransactions ts) t ∧
    findPosition (recalculatePortfolioFromTransactions [buyAAA, badBuyNeg]) "AAA" =
      some { etf := "AAA", shares := 5, avgEntry := 10, invested := 50, reserved := 0,
             strategy := "Add strategy notes" } := by
  refine ⟨recalculate_append_single ts t, ?_⟩
  norm_num [recalculatePortfolioFromTransactions, applyTransaction, applyAction,
    emptyPosition, lookup_strategy_AAA, buyAAA, badBuyNeg, findPosition_cons,
    findPosition_nil]

/-- Witness for C4: the amended theorem at the concrete invalid BUY. -/
theorem C4_no_validation_witness :
    recalculatePortfolioFromTransactions ([buyAAA] ++ [badBuyNeg]) =
      applyTransaction (recalculatePortfolioFromTransactions [buyAAA]) badBuyNeg :=
  (C4_no_validation [buyAAA] badBuyNeg (Or.inl (by norm_num [badBuyNeg]))).1

/-- C5: the replay returns exactly one position per distinct symbol of the
input, in first-encountered order, keeping fully closed symbols; zero-share
filtering is not done here. -/
theorem C5_one_position_per_symbol (ts : List Transaction) :
    (recalculatePortfolioFromTransactions ts).map Position.etf =
      firstSeen (ts.map Transaction.etf) ∧
    ((recalculatePortfolioFromTransactions ts).map Position.etf).Nodup ∧
    ∀ s : String,
      (∃ p ∈ recalculatePortfolioFromTransactions ts, p.etf = s) ↔
        s ∈ ts.map Transaction.etf := by
  refine ⟨recalculate_map_etf ts, ?_, ?_⟩
  · rw [recalculate_map_etf]
    exact firstSeen_nodup _
  · intro s
    rw [show (s ∈ ts.map Transaction.etf) =
        (s ∈ firstSeen (ts.map Transaction.etf)) from
      (propext (mem_firstSeen _ s)).symm]
    rw [← recalculate_map_etf]
    exact Iff.symm List.mem_map

/-- C6: interleaving the transactions of two distinct symbols in any relative
order gives each symbol the same position as replaying its own subsequence
alone; the relative order within one symbol is kept as given. -/
theorem C6_cross_symbol_independence (a b : String) (ta tb ts : List Transaction)
    (hab : a ≠ b) (hta : ∀ t ∈ ta, t.etf = a) (htb : ∀ t ∈ tb, t.etf = b)
    (hint : Interleaving ta tb ts) :
    findPosition (recalculatePortfolioFromTransactions ts) a =
      findPosition (recalculatePortfolioFromTransactions ta) a ∧
    findPosition (recalculatePortfolioFromTransactions ts) b =
      findPosition (recalculatePortfolioFromTransactions tb) b := by
  constructor
  · rw [findPosition_recalculate, findPosition_recalculate, replaySymbol, replaySymbol,
      Interleaving.filter_eq_left _ hint
        (fun x hx => by
          rw [show x.etf = b from htb x hx]
          exact decide_eq_false (fun hc => hab hc.symm))]
  · rw [findPosition_recalculate, findPosition_recalculate, replaySymbol, replaySymbol,
      Interleaving.filter_eq_left _ hint.symm
        (fun x hx => by
          rw [show x.etf = a from hta x hx]
          exact decide_eq_false hab)]

/-- Witness for C6: the interleaving of single BUYs of A and B, with B first. -/
theorem C6_cross_symbol_independence_witness :
    findPosition (recalculatePortfolioFromTransactions [tB, tA]) "A" =
      findPosition (recalculatePortfolioFromTransactions [tA]) "A" ∧
    findPosition (recalculatePortfolioFromTransactions [tB, tA]) "B" =
      findPosition (recalculatePortfolioFromTransactions [tB]) "B" :=
  C6_cross_symbol_independence "A" "B" [tA] [tB] [tB, tA]
    (by decide)
    (by intro t ht; rcases List.mem_singleton.mp ht with rfl; rfl)
    (by intro t ht; rcases List.mem_singleton.mp ht with rfl; rfl)
    (Interleaving.right tB (Interleaving.left tA Interleaving.nil))

/-- C7: a SELL that leaves a positive share balance removes cost basis at the
current average entry price — invested drops by exactly t.shares * avgEntry —
and the sale price has no effect on the replayed result at all. -/
theorem C7_sell_removes_cost_at_avg_entry (ts : List Transaction) (t : Transaction)
    (old : Position) (h : t.action = "SELL")
    (hold : old = currentPosition (recalculatePortfolioFromTransactions ts) t.etf)
    (hpos : 0 < old.shares - t.shares) :
    findPosition (recalculatePortfolioFromTransactions (ts ++ [t])) t.etf =
      some { old with
             shares := old.shares - t.shares,
             invested := old.invested - t.shares * old.avgEntry } ∧
    ∀ q : ℚ, recalculatePortfolioFromTransactions (ts ++ [{ t with price := q }]) =
      recalculatePortfolioFromTransactions (ts ++ [t]) := by
  subst hold
  constructor
  · rw [recalculate_append_single, findPosition_applyTransaction_self]
    congr 1
    simp [applyAction, h, sell_ne_buy_str, not_le.mpr hpos]
  · intro q
    rw [recalculate_append_single, recalculate_append_single]
    exact applyTransaction_price_irrelevant (recalculatePortfolioFromTransactions ts) t q

/-- Witness for C7: selling 5 of the 10 AAA shares leaves 5 shares and
invested 50, removed at the average entry of 10. -/
theorem C7_sell_removes_cost_at_avg_entry_witness :
    findPosition (recalculatePortfolioFromTransactions [buyAAA, sellAAA5]) "AAA" =
      some { etf := "AAA", shares := 5, avgEntry := 10, invested := 50, reserved := 0,
             strategy := "Add strategy notes" } := by
  have h := (C7_sell_removes_cost_at_avg_entry [buyAAA] sellAAA5
    (currentPosition (recalculatePortfolioFromTransactions [buyAAA]) sellAAA5.etf) rfl rfl
    (by norm_num [currentPosition, recalculatePortfolioFromTransactions,
      applyTransaction, applyAction, emptyPosition, lookup_strategy_AAA,
      findPosition_cons, findPosition_nil, buyAAA, sellAAA5])).1
  rw [show ([buyAAA] ++ [sellAAA5]) = [buyAAA, sellAAA5] from rfl] at h
  rw [show sellAAA5.etf = "AAA" from rfl] at h
  rw [h]
  norm_num [currentPosition, recalculatePortfolioFromTransactions, applyTransaction,
    applyAction, emptyPosition, lookup_strategy_AAA, findPosition_cons,
    findPosition_nil, buyAAA, sellAAA5, Position.mk.injEq]

/-- C8: the reconciler is a deterministic pure function of the transaction
sequence: the replay ignores whatever portfolio state was left by previous
calls, two runs on the same sequence coincide, and the empty sequence yields
the empty mapping. -/
theorem C8_pure_deterministic (st1 st2 : List Position) (ts : List Transaction) :
    recalculateStateful st1 ts = recalculateStateful st2 ts ∧
    recalculateStateful st1 ts = recalculatePortfolioFromTransactions ts ∧
    recalculatePortfolioFromTransactions ([] : List Transaction) = [] :=
  ⟨rfl, rfl, rfl⟩

/-- C9: the incremental-mutation strategy is not equivalent to the full
replay: on BUY-then-partial-SELL it subtracts the transaction total instead
of the cost basis at average entry (invested 40 versus 50), and a closing
sell is never clamped (invested stays at -20 with a stale avgEntry instead
of a flat position). -/
theorem C9_incremental_not_equivalent :
    incrementalReplay [buyAAA, sellAAA5] ≠
      recalculatePortfolioFromTransactions [buyAAA, sellAAA5] ∧
    incrementalReplay [buyAAA, sellAAA5] =
      [{ etf := "AAA", shares := 5, avgEntry := 10, invested := 40, reserved := 0,
         strategy := "" }] ∧
    recalculatePortfolioFromTransactions [buyAAA, sellAAA5] =
      [{ etf := "AAA", shares := 5, avgEntry := 10, invested := 50, reserved := 0,
         strategy := "Add strategy notes" }] ∧
    incrementalReplay [buyAAA, sellAAA10] =
      [{ etf := "AAA", shares := 0, avgEntry := 10, invested := -20, reserved := 0,
         strategy := "" }] ∧
    recalculatePortfolioFromTransactions [buyAAA, sellAAA10] =
      [{ etf := "AAA", shares := 0, avgEntry := 0, invested := 0, reserved := 0,
         strategy := "Add strategy notes" }] := by
  refine ⟨?_, ?_, ?_, ?_, ?_⟩ <;>
    norm_num [incrementalReplay, updatePortfolioFromTransaction, updateAction,
      emptyPositionIncr, recalculatePortfolioFromTransactions, applyTransaction,
      applyAction, emptyPosition, lookup_strategy_AAA, sell_ne_buy_str,
      buyAAA, sellAAA5, sellAAA10, Position.mk.injEq]

/-- C10: a transaction whose action is neither BUY nor SELL changes no
numeric field, raises nothing, but still creates a zero position for its
symbol when none exists, which then appears in the output. -/
theorem C10_unknown_action_creates_zero_position (ps : List Position)
    (t : Transaction) (h1 : t.action ≠ "BUY") (h2 : t.action ≠ "SELL") :
    applyTransaction ps t =
      (if ps.any (fun p => p.etf = t.etf) then ps else ps ++ [emptyPosition t.etf]) ∧
    findPosition (applyTransaction ps t) t.etf = some (currentPosition ps t.etf) ∧
    recalculatePortfolioFromTransactions [tDividend] = [emptyPosition "ZZZ"] := by
  have hAct : ∀ p : Position, applyAction p t = p := fun p => by
    simp [applyAction, h1, h2]
  refine ⟨?_, ?_, ?_⟩
  · induction ps with
    | nil => simp [applyTransaction, hAct]
    | cons p rest ih =>
      by_cases hpt : p.etf = t.etf
      · simp [applyTransaction, hpt, hAct]
      · by_cases hm : rest.any (fun p => p.etf = t.etf)
        · simp [applyTransaction, hpt, ih, hm]
        · simp [applyTransaction, hpt, ih, hm]
  · rw [findPosition_applyTransaction_self, hAct]
  · simp [recalculatePortfolioFromTransactions, applyTransaction, applyAction,
      tDividend, dividend_ne_buy_str, dividend_ne_sell_str]

/-- Witness for C10: a DIVIDEND record on an empty portfolio only creates the
zero position for its symbol. -/
theorem C10_unknown_action_creates_zero_position_witness :
    recalculatePortfolioFromTransactions [tDividend] = [emptyPosition "ZZZ"] :=
  (C10_unknown_action_creates_zero_position [] tDividend (by decide) (by decide)).2.2
